import Mathlib

/-!
Shallow embedding of the two-stage entity pipeline of `zhanwenchen/hgn`
(`scripts/0_build_db.py` and `scripts/2_extract_ner.py`).

Modelling conventions:
* Python strings that are sliced / searched / lowercased are modelled as
  `List Char` (`Str`); uninterpreted strings (ids, urls, labels) stay `String`.
* `str.lower()` is modelled character-wise (`Char.toLower`), faithful on the
  ASCII range the pipeline's labels and titles use.
* The spaCy model `nlp` (EntityTagger, an external collaborator per the spec)
  is an abstract parameter `tagger : Str → List Mention`.
* `unicodedata.normalize('NFD', ·)` (Python standard library, external) is an
  abstract parameter `nfd : String → String`.
* `pickle.dumps` produces an uninterpreted blob understood only by this pipeline's
  readers; it is modelled as the identity (rows store the values directly).
* Python `set` iteration order is unspecified; the candidate set built in
  `extract_ner_from_titles` is modelled as a duplicate-free list
  (`List.dedup`), which fixes one order for the unordered set.
* Strings are assumed not to end in a newline, so the regex anchor `$` in
  `re.sub(r' \(.*?\)$', '', s)` means end-of-string.
-/

abbrev Str := List Char

/-- An entity mention tuple `(ent.text, ent.start_char, ent.end_char, ent.label_)`
as built throughout both scripts. -/
structure Mention where
  text : Str
  startChar : Nat
  endChar : Nat
  label : String
deriving DecidableEq, Repr

/-- Line 14 of `2_extract_ner.py`: the allow-listed semantic entity types.
The Python value is a `set`; only membership is used, so a list models it. -/
def ent_type : List String :=
  ["PERSON", "NORP", "FAC", "ORG", "GPE", "LOC", "PRODUCT", "EVENT",
   "WORK_OF_ART", "LAW", "LANGUAGE"]

/-- The numeric/temporal types listed (commented out) on line 15 of
`2_extract_ner.py`, i.e. deliberately excluded from `ent_type`. -/
def numericTypes : List String :=
  ["DATE", "TIME", "PERCENT", "MONEY", "QUANTITY", "ORDINAL", "CARDINAL"]

/-- Python `s.lower()`, character-wise. -/
def lowerStr (s : Str) : Str := s.map Char.toLower

/-- Python `hay.find(pat)`: index of the first occurrence of `pat` in
`hay`, `none` when absent (Python returns `-1`). `find("") = 0` as in Python. -/
def findSub (hay pat : Str) : Option Nat :=
  if pat.isPrefixOf hay then some 0
  else
    match hay with
    | [] => none
    | _ :: t => (findSub t pat).map (· + 1)

/-- Does the regex ` \(.*?\)$` match starting exactly at the head of `s`
(with `s` extending to the end of the searched string)?  Requires a space,
an opening parenthesis, a closing parenthesis as the final character, and no
newline in between (`.` does not match a newline). -/
def tailParenMatch : Str → Bool
  | ' ' :: '(' :: rest =>
    rest.getLast? == some ')' && !(rest.dropLast.contains '\n')
  | _ => false

/-- Python `re.sub(r' \(.*?\)$', '', s)`: delete from the leftmost position where
the end-anchored parenthetical pattern matches; identity when it never does. -/
def stripParen : Str → Str
  | [] => []
  | c :: rest => if tailParenMatch (c :: rest) then [] else c :: stripParen rest

/-- The title loop of `extract_ner_from_titles` (lines 30-36): for each title,
strip the trailing parenthetical, search case-insensitively, and on a hit emit
`(title, start_pos, end_pos, 'TITLE')` — the FULL title text (line 35-36). -/
def titleMatches (sent : Str) (titles : List Str) : List Mention :=
  titles.filterMap fun title =>
    let stripped := stripParen title
    match findSub (lowerStr sent) (lowerStr stripped) with
    | some p => some ⟨title, p, p + stripped.length, "TITLE"⟩
    | none => none

/-- The candidate set built on lines 21-27: the texts of all pool mentions
whose label is in `ent_type`, as a duplicate-free list (Python `set`). -/
def candidatesOf (pool : List (Str × List (List Mention))) : List Str :=
  ((((pool.map Prod.snd).flatten).flatten).filter
    (fun e => ent_type.contains e.label)).map Mention.text |>.dedup

/-- The candidate loop of `extract_ner_from_titles` (lines 38-44): strip each
candidate, search case-insensitively, and on a hit emit the literally matched
slice of the original sentence with provenance `'CONTEXT'`. -/
def contextMatches (sent : Str) (cands : List Str) : List Mention :=
  cands.filterMap fun w0 =>
    let w := stripParen w0
    match findSub (lowerStr sent) (lowerStr w) with
    | some p => some ⟨(sent.drop p).take w.length, p, p + w.length, "CONTEXT"⟩
    | none => none

/-- The candidates contributed by the optional `context_ners` argument:
none when it is `None` (the lines 22-27 loop never runs), else the candidate
set of the pool. -/
def poolCandidates (o : Option (List (Str × List (List Mention)))) : List Str :=
  match o with
  | none => []
  | some p => candidatesOf p

/-- Function `extract_ner_from_titles(sent, titles, context_ners=None)` (lines 17-46):
title matches first, then context-candidate matches. -/
def extract_ner_from_titles (sent : Str) (titles : List Str)
    (context_ners : Option (List (Str × List (List Mention)))) : List Mention :=
  titleMatches sent titles ++ contextMatches sent (poolCandidates context_ners)

/-- A mention with its text projected away: start, end and label.  Used to
state that matching positions do not depend on letter case (the text of a
`'CONTEXT'` mention is a slice of the original sentence, so it does retain
the sentence's case). -/
def mentionShape (m : Mention) : Nat × Nat × String :=
  (m.startChar, m.endChar, m.label)

/-- A question/context case of the dataset: `_id`, `question`, and `context`
as an ordered sequence of `[title, sentences]` pairs. -/
structure Case where
  guid : String
  question : Str
  context : List (Str × List Str)
deriving DecidableEq, Repr

/-- Python `list(dict(case_context).keys())`: the case's titles, first occurrence
order, duplicates collapsed (Python dict keys). -/
def titlesOf (c : Case) : List Str :=
  (c.context.map Prod.fst).foldl (fun acc t => if acc.contains t then acc else acc ++ [t]) []

/-- The per-`(title, sents)` loop body of `extract_context_ner`
(`2_extract_ner.py` lines 81-88): zip the sentences against the precomputed
per-sentence tagger entities (`zip` stops at the shorter sequence), keep
tagger entities whose label is in `ent_type`, then extend with the literal
title matches (`extract_ner_from_titles(sent, titles)`, no context pool). -/
def contextNerForDoc (titles : List Str) (sents : List Str)
    (precomp : List (List Mention)) : List (List Mention) :=
  (sents.zip precomp).map fun p =>
    p.2.filter (fun n => ent_type.contains n.label) ++
      extract_ner_from_titles p.1 titles none

/-- Function `extract_context_ner(full_data, ner_data)` (lines 67-92). `ner_data` maps
a title to its stored `text_ner`; the fatal `KeyError` on a missing title is
not modelled (titles are assumed present, as the spec's corpus-snapshot
assumption states), so the map is total. The result dict is an association
list keyed by guid. -/
def extract_context_ner (full_data : List Case) (ner_data : Str → List (List Mention)) :
    List (String × List (Str × List (List Mention))) :=
  full_data.map fun c =>
    (c.guid, c.context.map fun p => (p.1, contextNerForDoc (titlesOf c) p.2 (ner_data p.1)))

/-- Function `extract_question_ner(full_data)` (lines 48-65): the tagger applied once
to each full question string (the `nlp.pipe` batching is plumbing), keyed by
guid. -/
def extract_question_ner (tagger : Str → List Mention) (full_data : List Case) :
    List (String × List Mention) :=
  full_data.map fun c => (c.guid, tagger c.question)

/-- The module-level output loop (`2_extract_ner.py` lines 102-120): for each
case, look up its question-tagger entities and its context entities in the two
dicts, and emit `question = ques_ent_1 + ques_ent_2` and `context`.
The lookups cannot miss in the source (the dicts were built from the same
`data`); a miss is modelled as the empty default. -/
def outputFor (tagger : Str → List Mention) (ner_data : Str → List (List Mention))
    (full_data : List Case) :
    List (String × (List Mention × List (Str × List (List Mention)))) :=
  full_data.map fun c =>
    let ques_ent_1 := ((extract_question_ner tagger full_data).lookup c.guid).getD []
    let context_ners := ((extract_context_ner full_data ner_data).lookup c.guid).getD []
    let ques_ent_2 := extract_ner_from_titles c.question (titlesOf c) (some context_ners)
    (c.guid, (ques_ent_1 ++ ques_ent_2, context_ners))

/-- A raw JSON document of the corpus (`0_build_db.py`): `id`, `url`, `title`,
`text` and `text_with_links` as parallel sequences of sentences. -/
structure RawDoc where
  id : String
  url : String
  title : String
  text : List Str
  text_with_links : List Str
deriving DecidableEq, Repr

/-- A row of the `documents` table. `pickle.dumps` blobs are uninterpreted by the
store and modelled as the values themselves. -/
structure Row where
  id : String
  url : String
  title : String
  text : List Str
  text_with_links : List Str
  text_ner : List (List Mention)
  sent_num : Nat
deriving DecidableEq, Repr

/-- The row tuple built on lines 89-97 of `0_build_db.py`:
`(normalize('NFD', id), url, title, text, text_with_links, text_ner, len(text))`,
with `text_ner` the tagger run sentence-by-sentence over `text`. -/
def mkRow (nfd : String → String) (tagger : Str → List Mention) (doc : RawDoc) : Row :=
  ⟨nfd doc.id, doc.url, doc.title, doc.text, doc.text_with_links,
   doc.text.map tagger, doc.text.length⟩

/-- Function `get_contents(filename)` (lines 70-99) on an already-decoded batch of
records (JSON decoding and the optional `PREPROCESS_FN` hook — absent here,
so every record is kept as-is — are external). Each record's
`assert len(text) == len(text_with_links)` raises an `AssertionError` that
aborts the whole batch; otherwise the record's row is appended in order. -/
def get_contents (nfd : String → String) (tagger : Str → List Mention) :
    List RawDoc → Except String (List Row)
  | [] => .ok []
  | doc :: rest =>
    if doc.text.length = doc.text_with_links.length then
      match get_contents nfd tagger rest with
      | .ok rows => .ok (mkRow nfd tagger doc :: rows)
      | .error e => .error e
    else .error ("AssertionError: len(doc_text) == len(doc_text_with_links)")

/-- What exists on the filesystem at the destination path. -/
inductive PathState
  | absent
  | regularFile
  | directory
  | other
deriving DecidableEq, Repr

/-- Python `os.path.isfile`: true exactly for an existing regular file. -/
def os_path_isfile : PathState → Bool
  | .regularFile => true
  | _ => false

/-- The state of the sqlite store written by `store_contents`. -/
structure Store where
  tableCreated : Bool
  rows : List Row
deriving DecidableEq, Repr

/-- The body of `store_contents` after the already-exists precheck
(lines 116-131): connect/create the table, then insert each batch's rows as
the batches complete (completion order across batches is unspecified in the
source; one order is modelled). A failing batch (`get_contents` raising) is
fatal to the run.  `sqlite3_connect` and `CREATE TABLE` (lines 117-119) are
the storage engine's — an external collaborator — and are idealized as
succeeding here; whether the real connect fails on a given non-file object
sitting at `save_path` is engine behaviour not derivable from this source,
so no theorem about the body's outcome on such a destination is claimed. -/
def ingestBatches (nfd : String → String) (tagger : Str → List Mention)
    (batches : List (List RawDoc)) : Except String Store := do
  let rows ← batches.foldlM (fun acc batch => do
    let pairs ← get_contents nfd tagger batch
    pure (acc ++ pairs)) []
  pure ⟨true, rows⟩

/-- Function `store_contents(data_path, save_path, ...)` (lines 102-131): raise
`RuntimeError` when `os.path.isfile(save_path)`, else create the store and
ingest every batch. -/
def store_contents (dest : PathState) (nfd : String → String)
    (tagger : Str → List Mention) (batches : List (List RawDoc)) : Except String Store :=
  if os_path_isfile dest then .error ("already exists! Not overwriting.")
  else ingestBatches nfd tagger batches

/-- A tiny concrete instance of a canonical-decomposition normalizer, used to
exercise the ingestion theorems on concrete inputs: it decomposes the
precomposed U+00E9 (e with acute accent) into U+0065 U+0301 and leaves every
other character unchanged, as NFD does on this fragment of Unicode. -/
def toyNFD (s : String) : String :=
  String.mk (s.toList.flatMap fun c =>
    if c = Char.ofNat 0xE9 then [Char.ofNat 0x65, Char.ofNat 0x301] else [c])

/-! ## Helper lemmas -/

theorem findSub_isSome (hay pat : Str) (n : Nat) (h : findSub hay pat = some n) :
    pat.isPrefixOf (hay.drop n) = true ∧
      ∀ k, k < n → pat.isPrefixOf (hay.drop k) = false := by
  induction hay generalizing n with
  | nil =>
    unfold findSub at h
    by_cases hp : pat.isPrefixOf ([] : Str)
    · rw [if_pos hp] at h
      cases h
      exact ⟨hp, fun k hk => absurd hk (Nat.not_lt_zero k)⟩
    · rw [if_neg hp] at h
      cases h
  | cons c t ih =>
    unfold findSub at h
    by_cases hp : pat.isPrefixOf (c :: t)
    · rw [if_pos hp] at h
      cases h
      exact ⟨hp, fun k hk => absurd hk (Nat.not_lt_zero k)⟩
    · rw [if_neg hp] at h
      rcases Option.map_eq_some'.mp h with ⟨m, hm, rfl⟩
      rcases ih m hm with ⟨h1, h2⟩
      refine ⟨h1, fun k hk => ?_⟩
      cases k with
      | zero => simpa using Bool.eq_false_iff.mpr hp
      | succ j => exact h2 j (Nat.lt_of_succ_lt_succ hk)

theorem findSub_eq_none (hay pat : Str)
    (h : ∀ k, k ≤ hay.length → pat.isPrefixOf (hay.drop k) = false) :
    findSub hay pat = none := by
  induction hay with
  | nil =>
    have h0 : pat.isPrefixOf ([] : Str) = false := h 0 (Nat.le_refl 0)
    simp [findSub, h0]
  | cons c t ih =>
    have h0 : pat.isPrefixOf (c :: t) = false := h 0 (Nat.zero_le _)
    have ht : findSub t pat = none :=
      ih fun k hk => h (k + 1) (Nat.succ_le_succ hk)
    simp [findSub, h0, ht]

theorem get_contents_ok_of_aligned (nfd : String → String) (tagger : Str → List Mention) :
    ∀ batch : List RawDoc,
      (∀ d ∈ batch, d.text.length = d.text_with_links.length) →
      get_contents nfd tagger batch = .ok (batch.map (mkRow nfd tagger)) := by
  intro batch
  induction batch with
  | nil => intro _; rfl
  | cons doc rest ih =>
    intro h
    have hd := h doc (List.mem_cons_self doc rest)
    have hr := ih fun d hdm => h d (List.mem_cons_of_mem doc hdm)
    simp [get_contents, hd, hr]

theorem get_contents_ne_ok_of_mismatch (nfd : String → String) (tagger : Str → List Mention) :
    ∀ batch : List RawDoc,
      (∃ d ∈ batch, d.text.length ≠ d.text_with_links.length) →
      ∀ rows, get_contents nfd tagger batch ≠ .ok rows := by
  intro batch
  induction batch with
  | nil => rintro ⟨d, hd, _⟩; cases hd
  | cons doc rest ih =>
    rintro ⟨d, hd, hne⟩ rows hok
    by_cases hc : doc.text.length = doc.text_with_links.length
    · rw [get_contents, if_pos hc] at hok
      cases hrec : get_contents nfd tagger rest with
      | error e => rw [hrec] at hok; cases hok
      | ok rows2 =>
        rcases List.mem_cons.mp hd with rfl | hdr
        · exact hne hc
        · exact ih ⟨d, hdr, hne⟩ rows2 hrec
    · rw [get_contents, if_neg hc] at hok
      cases hok

theorem get_contents_ok_elim (nfd : String → String) (tagger : Str → List Mention) :
    ∀ (batch : List RawDoc) (rows : List Row),
      get_contents nfd tagger batch = .ok rows →
      rows = batch.map (mkRow nfd tagger) := by
  intro batch
  induction batch with
  | nil =>
    intro rows h
    rw [get_contents] at h
    cases h
    rfl
  | cons doc rest ih =>
    intro rows h
    by_cases hc : doc.text.length = doc.text_with_links.length
    · rw [get_contents, if_pos hc] at h
      cases hrec : get_contents nfd tagger rest with
      | error e => rw [hrec] at h; cases h
      | ok rows2 =>
        rw [hrec] at h
        cases h
        rw [List.map_cons, ih rows2 hrec]
    · rw [get_contents, if_neg hc] at h
      cases h

theorem lookup_map_guid {α : Type} (f : Case → α) :
    ∀ (l : List Case) (c : Case), (l.map Case.guid).Nodup → c ∈ l →
      (l.map fun x => (x.guid, f x)).lookup c.guid = some (f c) := by
  intro l
  induction l with
  | nil => intro c _ hc; cases hc
  | cons a t ih =>
    intro c hnd hc
    rw [List.map_cons, List.lookup_cons]
    rcases List.mem_cons.mp hc with rfl | hct
    · simp
    · have hne : c.guid ≠ a.guid := by
        intro he
        have : a.guid ∈ t.map Case.guid := he ▸ List.mem_map_of_mem Case.guid hct
        exact (List.nodup_cons.mp (by simpa using hnd)).1 this
      rw [show (c.guid == a.guid) = false from beq_eq_false_iff_ne.mpr hne]
      exact ih c (List.nodup_cons.mp (by simpa using hnd)).2 hct

/-! ## Claim theorems -/

/-- C1 (counterexample): with title `"Marie Curie (scientist)"` and sentence
`"Marie Curie was born in Warsaw"`, the emitted title-derived mention carries
the FULL title text `"Marie Curie (scientist)"` (with offsets 0-11 of the
stripped form's occurrence), not the stripped text `"Marie Curie"` the claim
asserts. -/
theorem c1_counterexample :
    extract_ner_from_titles ("Marie Curie was born in Warsaw".toList)
        ["Marie Curie (scientist)".toList] none
      = [Mention.mk ("Marie Curie (scientist)".toList) 0 11 "TITLE"] ∧
    Mention.mk ("Marie Curie".toList) 0 11 "TITLE"
      ∉ extract_ner_from_titles ("Marie Curie was born in Warsaw".toList)
          ["Marie Curie (scientist)".toList] none := by
  decide

/-- C1 (amended): for every title candidate whose suffix-stripped form occurs
(case-insensitively) in the sentence at position `p`, the emitted
title-derived mention is `(title, p, p + len(stripped), 'TITLE')` — matching
is done on the stripped form (offsets span its occurrence), but the emitted
mention text is the full, unstripped title. -/
theorem c1_title_mention_is_full_title (sent : Str) (titles : List Str)
    (title : Str) (p : Nat) (ht : title ∈ titles)
    (hf : findSub (lowerStr sent) (lowerStr (stripParen title)) = some p) :
    Mention.mk title p (p + (stripParen title).length) "TITLE"
      ∈ extract_ner_from_titles sent titles none := by
  unfold extract_ner_from_titles
  apply List.mem_append_left
  unfold titleMatches
  refine List.mem_filterMap.mpr ⟨title, ht, ?_⟩
  simp [hf]

/-- C1 (witness): the amended statement at the Marie Curie input. -/
theorem c1_witness :
    Mention.mk ("Marie Curie (scientist)".toList) 0
        (0 + (stripParen ("Marie Curie (scientist)".toList)).length) "TITLE"
      ∈ extract_ner_from_titles ("Marie Curie was born in Warsaw".toList)
          ["Marie Curie (scientist)".toList] none :=
  c1_title_mention_is_full_title _ _ _ 0 (by decide) (by decide)

/-- C2 (counterexample): a context document with 2 sentences but only 1
precomputed per-sentence entity list is processed without any error:
`zip` silently truncates and exactly 1 (the shorter count) sentence entry is
emitted. -/
theorem c2_counterexample :
    (["Marie Curie was born in Warsaw".toList, "She died in 1934".toList] : List Str).length = 2 ∧
    ([[Mention.mk ("Warsaw".toList) 24 30 "GPE"]] : List (List Mention)).length = 1 ∧
    contextNerForDoc [] ["Marie Curie was born in Warsaw".toList, "She died in 1934".toList]
        [[Mention.mk ("Warsaw".toList) 24 30 "GPE"]]
      = [[Mention.mk ("Warsaw".toList) 24 30 "GPE"]] := by
  decide

/-- C2 (amended): for every `(title, sentences)` pair, zipping the sentences
against the precomputed per-sentence entities silently processes only the
shorter of the two sequences (no alignment error is raised): the emitted
per-sentence list has length `min(len(sentences), len(precomputed))`. -/
theorem c2_zip_truncates (titles : List Str) (sents : List Str)
    (precomp : List (List Mention)) :
    (contextNerForDoc titles sents precomp).length
      = min sents.length precomp.length := by
  simp [contextNerForDoc]

/-- C10: the already-exists precondition of `store_contents` raises exactly
when `os.path.isfile(save_path)` holds, i.e. when a regular file exists at
the destination; for every other path state (absent, directory, other
non-file object) the check passes and the run proceeds to ingestion. -/
theorem c10_precheck_isfile_only (nfd : String → String)
    (tagger : Str → List Mention) (batches : List (List RawDoc))
    (dest : PathState) :
    (os_path_isfile dest = true ↔ dest = PathState.regularFile) ∧
    (dest = PathState.regularFile →
      store_contents dest nfd tagger batches
        = .error ("already exists! Not overwriting.")) ∧
    (dest ≠ PathState.regularFile →
      store_contents dest nfd tagger batches
        = ingestBatches nfd tagger batches) := by
  cases dest <;> simp [store_contents, os_path_isfile]

/-- C10 (witness): with a directory at the destination, the run proceeds past
the precondition into ingestion. -/
theorem c10_witness :
    store_contents PathState.directory (fun s => s) (fun _ => []) []
      = ingestBatches (fun s => s) (fun _ => []) [] :=
  (c10_precheck_isfile_only (fun s => s) (fun _ => []) [] PathState.directory).2.2
    (by decide)

/-- C4: a record whose `text` and `text_with_links` sequences have different
lengths makes decoding the batch fail with the assertion error and no row of
that batch is returned for storage; when every record's lengths are equal,
the assertion passes on each and every record proceeds to tagging and row
construction. -/
theorem c4_parallel_length_assert (nfd : String → String)
    (tagger : Str → List Mention) (batch : List RawDoc) :
    ((∃ d ∈ batch, d.text.length ≠ d.text_with_links.length) →
        ∀ rows, get_contents nfd tagger batch ≠ .ok rows) ∧
    ((∀ d ∈ batch, d.text.length = d.text_with_links.length) →
        get_contents nfd tagger batch = .ok (batch.map (mkRow nfd tagger))) :=
  ⟨get_contents_ne_ok_of_mismatch nfd tagger batch,
   get_contents_ok_of_aligned nfd tagger batch⟩

/-- C4 (witness): a one-record batch with a length mismatch yields no rows;
a one-record aligned batch yields its row. -/
theorem c4_witness :
    (get_contents (fun s => s) (fun _ => []) [⟨"i1", "u1", "t1", [['a']], []⟩]
        ≠ .ok []) ∧
    (get_contents (fun s => s) (fun _ => []) [⟨"i2", "u2", "t2", [['b']], [['b']]⟩]
        = .ok [⟨"i2", "u2", "t2", [['b']], [['b']], [[]], 1⟩]) :=
  ⟨(c4_parallel_length_assert (fun s => s) (fun _ => [])
      [⟨"i1", "u1", "t1", [['a']], []⟩]).1
      ⟨⟨"i1", "u1", "t1", [['a']], []⟩, by decide⟩ [],
   (c4_parallel_length_assert (fun s => s) (fun _ => [])
      [⟨"i2", "u2", "t2", [['b']], [['b']]⟩]).2 (by decide)⟩

/-- C5: every stored row's primary-key id is `nfd` (the canonical
decomposition normalizer) applied to the record's raw id; consequently two
records whose raw ids normalize alike get the same stored key. -/
theorem c5_nfd_primary_key (nfd : String → String) (tagger : Str → List Mention)
    (batch : List RawDoc) (rows : List Row)
    (h : get_contents nfd tagger batch = .ok rows) :
    rows.map Row.id = batch.map (fun d => nfd d.id) ∧
    ∀ d₁ d₂ : RawDoc, nfd d₁.id = nfd d₂.id →
      (mkRow nfd tagger d₁).id = (mkRow nfd tagger d₂).id := by
  constructor
  · rw [get_contents_ok_elim nfd tagger batch rows h, List.map_map]
    rfl
  · intro d₁ d₂ h12
    exact h12

/-- C5 (witness): the byte-distinct, canonically-equivalent ids U+00E9 and
U+0065 U+0301 collide on the stored primary key under the concrete
decomposing normalizer. -/
theorem c5_witness :
    ("é" : String) ≠ ("é" : String) ∧
    (mkRow toyNFD (fun _ => []) ⟨"é", "u1", "t1", [], []⟩).id
      = (mkRow toyNFD (fun _ => []) ⟨"é", "u2", "t2", [], []⟩).id :=
  ⟨by decide,
   (c5_nfd_primary_key toyNFD (fun _ => [])
      [⟨"é", "u1", "t1", [], []⟩, ⟨"é", "u2", "t2", [], []⟩] _ rfl).2
      ⟨"é", "u1", "t1", [], []⟩ ⟨"é", "u2", "t2", [], []⟩ (by decide)⟩

/-- C6: for every aligned (sentence, tagger-entity-list) pair of a context
document, the tagger entities kept for that sentence are exactly those whose
label is in the allow-list, in their original order (a sublist), and no
entity with a numeric/temporal label survives; the kept list (followed by the
title-derived mentions) is the sentence's emitted entry. -/
theorem c6_context_entity_allowlist (titles : List Str) (sents : List Str)
    (precomp : List (List Mention)) (sent : Str) (sentNer : List Mention)
    (h : (sent, sentNer) ∈ sents.zip precomp) :
    (sentNer.filter (fun n => ent_type.contains n.label)
        ++ extract_ner_from_titles sent titles none)
      ∈ contextNerForDoc titles sents precomp ∧
    (sentNer.filter (fun n => ent_type.contains n.label)).Sublist sentNer ∧
    (∀ n : Mention, n ∈ sentNer.filter (fun n => ent_type.contains n.label) ↔
        n ∈ sentNer ∧ n.label ∈ ent_type) ∧
    (∀ n : Mention, n.label ∈ numericTypes →
        n ∉ sentNer.filter (fun n => ent_type.contains n.label)) := by
  refine ⟨?_, List.filter_sublist sentNer, ?_, ?_⟩
  · unfold contextNerForDoc
    exact List.mem_map_of_mem _ h
  · intro n
    simp [List.mem_filter]
  · intro n hnum hmem
    have hlab : n.label ∈ ent_type := by
      have := (List.mem_filter.mp hmem).2
      simpa using this
    have hdisj : ∀ l ∈ numericTypes, l ∉ ent_type := by decide
    exact hdisj n.label hnum hlab

/-- C6 (witness): a sentence tagged with one DATE and one PERSON keeps only
the PERSON, and the kept-then-title-appended list is the emitted entry. -/
theorem c6_witness :
    ([Mention.mk ("1905".toList) 0 4 "DATE",
        Mention.mk ("Marie".toList) 0 5 "PERSON"].filter
        (fun n => ent_type.contains n.label)
      = [Mention.mk ("Marie".toList) 0 5 "PERSON"]) ∧
    ([Mention.mk ("1905".toList) 0 4 "DATE",
        Mention.mk ("Marie".toList) 0 5 "PERSON"].filter
        (fun n => ent_type.contains n.label)
        ++ extract_ner_from_titles ("x".toList) [] none)
      ∈ contextNerForDoc [] ["x".toList]
          [[Mention.mk ("1905".toList) 0 4 "DATE",
            Mention.mk ("Marie".toList) 0 5 "PERSON"]] :=
  ⟨by decide,
   (c6_context_entity_allowlist [] ["x".toList]
      [[Mention.mk ("1905".toList) 0 4 "DATE",
        Mention.mk ("Marie".toList) 0 5 "PERSON"]]
      "x".toList
      [Mention.mk ("1905".toList) 0 4 "DATE",
       Mention.mk ("Marie".toList) 0 5 "PERSON"] (by decide)).1⟩

/-- C7: for every case of a dataset with distinct guids, the emitted question
entity sequence is exactly the tagger's entities for the full question string
followed by the literal-match entities from the mention extractor (with the
case's own context entities as pool), concatenated in that order with no
deduplication. -/
theorem c7_question_tagger_then_literal (tagger : Str → List Mention)
    (ner_data : Str → List (List Mention)) (full_data : List Case) (c : Case)
    (hnd : (full_data.map Case.guid).Nodup) (hc : c ∈ full_data) :
    (outputFor tagger ner_data full_data).lookup c.guid
      = some (tagger c.question ++
          extract_ner_from_titles c.question (titlesOf c)
            (some (c.context.map fun p =>
              (p.1, contextNerForDoc (titlesOf c) p.2 (ner_data p.1)))),
        c.context.map fun p =>
          (p.1, contextNerForDoc (titlesOf c) p.2 (ner_data p.1))) := by
  have h1 : (extract_question_ner tagger full_data).lookup c.guid
      = some (tagger c.question) :=
    lookup_map_guid (fun x => tagger x.question) full_data c hnd hc
  have h2 : (extract_context_ner full_data ner_data).lookup c.guid
      = some (c.context.map fun p =>
          (p.1, contextNerForDoc (titlesOf c) p.2 (ner_data p.1))) :=
    lookup_map_guid
      (fun x => x.context.map fun p : Str × List Str =>
        (p.1, contextNerForDoc (titlesOf x) p.2 (ner_data p.1)))
      full_data c hnd hc
  have h3 : (outputFor tagger ner_data full_data).lookup c.guid
      = some
          (((extract_question_ner tagger full_data).lookup c.guid).getD [] ++
            extract_ner_from_titles c.question (titlesOf c)
              (some (((extract_context_ner full_data ner_data).lookup c.guid).getD [])),
           ((extract_context_ner full_data ner_data).lookup c.guid).getD []) :=
    lookup_map_guid
      (fun x =>
        (((extract_question_ner tagger full_data).lookup x.guid).getD [] ++
          extract_ner_from_titles x.question (titlesOf x)
            (some (((extract_context_ner full_data ner_data).lookup x.guid).getD [])),
         ((extract_context_ner full_data ner_data).lookup x.guid).getD []))
      full_data c hnd hc
  rw [h3, h1, h2]
  rfl

/-- C7 (witness): the concatenation shape at a concrete one-case dataset with
a concrete tagger. -/
theorem c7_witness :
    (outputFor (fun s => [Mention.mk s 0 (s.length) "TAGGED"]) (fun _ => [[]])
        [⟨"g1", ['q'], [(['T'], [['s']])]⟩]).lookup ("g1")
      = some ([Mention.mk ['q'] 0 1 "TAGGED"] ++
          extract_ner_from_titles ['q'] (titlesOf ⟨"g1", ['q'], [(['T'], [['s']])]⟩)
            (some [(['T'],
              contextNerForDoc (titlesOf ⟨"g1", ['q'], [(['T'], [['s']])]⟩)
                [['s']] [[]])]),
        [(['T'],
          contextNerForDoc (titlesOf ⟨"g1", ['q'], [(['T'], [['s']])]⟩)
            [['s']] [[]])]) :=
  c7_question_tagger_then_literal (fun s => [Mention.mk s 0 (s.length) "TAGGED"])
    (fun _ => [[]]) [⟨"g1", ['q'], [(['T'], [['s']])]⟩]
    ⟨"g1", ['q'], [(['T'], [['s']])]⟩ (by decide) (by decide)

theorem titleMatches_congr_lower (s₁ s₂ : Str) (h : lowerStr s₁ = lowerStr s₂)
    (titles : List Str) : titleMatches s₁ titles = titleMatches s₂ titles := by
  unfold titleMatches
  rw [h]

theorem contextMatches_shape_congr (s₁ s₂ : Str) (h : lowerStr s₁ = lowerStr s₂)
    (cands : List Str) :
    (contextMatches s₁ cands).map mentionShape
      = (contextMatches s₂ cands).map mentionShape := by
  rw [contextMatches, contextMatches, List.map_filterMap, List.map_filterMap]
  apply List.filterMap_congr
  intro w _
  have hf : findSub (lowerStr s₂) (lowerStr (stripParen w))
      = findSub (lowerStr s₁) (lowerStr (stripParen w)) := by rw [h]
  simp only [hf]
  cases findSub (lowerStr s₁) (lowerStr (stripParen w)) <;> rfl

theorem titleMatches_eq_nil (sent : Str) (titles : List Str)
    (h : ∀ t ∈ titles, ∀ k, k ≤ (lowerStr sent).length →
      (lowerStr (stripParen t)).isPrefixOf ((lowerStr sent).drop k) = false) :
    titleMatches sent titles = [] := by
  unfold titleMatches
  rw [List.filterMap_eq_nil_iff]
  intro t ht
  simp [findSub_eq_none _ _ (h t ht)]

theorem contextMatches_eq_nil (sent : Str) (cands : List Str)
    (h : ∀ w ∈ cands, ∀ k, k ≤ (lowerStr sent).length →
      (lowerStr (stripParen w)).isPrefixOf ((lowerStr sent).drop k) = false) :
    contextMatches sent cands = [] := by
  unfold contextMatches
  rw [List.filterMap_eq_nil_iff]
  intro w hw
  simp [findSub_eq_none _ _ (h w hw)]

/-- C8: the mention extractor's substring matching is case-insensitive (the
match positions, spans and provenance labels depend only on the lowercased
sentence), takes the first occurrence only (`findSub` returns a position with
no earlier occurrence), and emits the empty sequence when no candidate occurs
case-insensitively anywhere in the sentence — an absent candidate contributes
nothing and is never an error. -/
theorem c8_case_insensitive_first_silent :
    (∀ (titles : List Str) (pool : Option (List (Str × List (List Mention))))
        (s₁ s₂ : Str), lowerStr s₁ = lowerStr s₂ →
        (extract_ner_from_titles s₁ titles pool).map mentionShape
          = (extract_ner_from_titles s₂ titles pool).map mentionShape) ∧
    (∀ (sent : Str) (titles : List Str)
        (pool : Option (List (Str × List (List Mention)))),
        (∀ t ∈ titles, ∀ k, k ≤ (lowerStr sent).length →
          (lowerStr (stripParen t)).isPrefixOf ((lowerStr sent).drop k) = false) →
        (∀ w ∈ poolCandidates pool, ∀ k, k ≤ (lowerStr sent).length →
          (lowerStr (stripParen w)).isPrefixOf ((lowerStr sent).drop k) = false) →
        extract_ner_from_titles sent titles pool = []) ∧
    (∀ (hay pat : Str) (n : Nat), findSub hay pat = some n →
        pat.isPrefixOf (hay.drop n) = true ∧
        ∀ k, k < n → pat.isPrefixOf (hay.drop k) = false) := by
  refine ⟨?_, ?_, findSub_isSome⟩
  · intro titles pool s₁ s₂ h
    unfold extract_ner_from_titles
    rw [List.map_append, List.map_append,
      titleMatches_congr_lower s₁ s₂ h titles,
      contextMatches_shape_congr s₁ s₂ h (poolCandidates pool)]
  · intro sent titles pool h1 h2
    unfold extract_ner_from_titles
    rw [titleMatches_eq_nil sent titles h1,
      contextMatches_eq_nil sent (poolCandidates pool) h2]
    rfl

/-- C8 (witness): case-changed sentences produce identically shaped mentions;
a sentence containing no candidate yields the empty list; the position found
for `"bc"` in `"abcabc"` is its first occurrence. -/
theorem c8_witness :
    ((extract_ner_from_titles ("MARIE curie was born".toList)
        ["Marie Curie (scientist)".toList] none).map mentionShape
      = (extract_ner_from_titles ("marie CURIE was BORN".toList)
          ["Marie Curie (scientist)".toList] none).map mentionShape) ∧
    (extract_ner_from_titles ("no such name here".toList)
        ["Paris (France)".toList] none = []) ∧
    (List.isPrefixOf ("bc".toList) ("abcabc".toList.drop 1) = true) ∧
    (List.isPrefixOf ("bc".toList) ("abcabc".toList.drop 0) = false) :=
  ⟨c8_case_insensitive_first_silent.1 ["Marie Curie (scientist)".toList] none
      ("MARIE curie was born".toList) ("marie CURIE was BORN".toList) (by decide),
   c8_case_insensitive_first_silent.2.1 ("no such name here".toList)
      ["Paris (France)".toList] none (by decide) (by decide),
   (c8_case_insensitive_first_silent.2.2 ("abcabc".toList) ("bc".toList) 1
      (by decide)).1,
   (c8_case_insensitive_first_silent.2.2 ("abcabc".toList) ("bc".toList) 1
      (by decide)).2 0 (by decide)⟩

/-- C9: the context-derived candidate set contains exactly the texts of pool
mentions whose label is in the semantic allow-list — mentions labelled
`'TITLE'` or `'CONTEXT'` (not in the allow-list) never become candidates —
with duplicate texts collapsed into one candidate (set semantics), so each
distinct candidate text yields at most one context-derived mention per call. -/
theorem c9_candidate_pool_set (pool : List (Str × List (List Mention))) :
    (∀ w : Str, w ∈ candidatesOf pool ↔
      ∃ e : Mention, (∃ d ∈ pool, ∃ sl ∈ d.2, e ∈ sl) ∧
        e.label ∈ ent_type ∧ e.text = w) ∧
    ("TITLE" ∉ ent_type ∧ "CONTEXT" ∉ ent_type) ∧
    (candidatesOf pool).Nodup ∧
    (∀ sent : Str, (contextMatches sent (candidatesOf pool)).length
        ≤ (candidatesOf pool).length) := by
  refine ⟨?_, by decide, List.nodup_dedup _,
    fun sent => List.length_filterMap_le _ _⟩
  intro w
  constructor
  · intro hw
    obtain ⟨e, he, rfl⟩ := List.mem_map.mp (List.mem_dedup.mp hw)
    obtain ⟨hez, hlab⟩ := List.mem_filter.mp he
    obtain ⟨sl, hsl, hesl⟩ := List.mem_flatten.mp hez
    obtain ⟨L, hL, hslL⟩ := List.mem_flatten.mp hsl
    obtain ⟨d, hd, rfl⟩ := List.mem_map.mp hL
    exact ⟨e, ⟨d, hd, sl, hslL, hesl⟩, by simpa using hlab, rfl⟩
  · rintro ⟨e, ⟨d, hd, sl, hsl, hesl⟩, hlab, rfl⟩
    apply List.mem_dedup.mpr
    apply List.mem_map.mpr
    refine ⟨e, ?_, rfl⟩
    apply List.mem_filter.mpr
    refine ⟨?_, by simpa using hlab⟩
    exact List.mem_flatten.mpr
      ⟨sl, List.mem_flatten.mpr
        ⟨d.2, List.mem_map_of_mem Prod.snd hd, hsl⟩, hesl⟩

/-- C9 (witness): a GPE-labelled pool mention's text becomes a candidate at a
concrete pool (whose `'TITLE'`-labelled mention does not). -/
theorem c9_witness :
    "Warsaw".toList ∈ candidatesOf
      [(['T'], [[Mention.mk ("Warsaw".toList) 0 6 "GPE",
                 Mention.mk ("tx".toList) 0 2 "TITLE"]])] :=
  ((c9_candidate_pool_set
      [(['T'], [[Mention.mk ("Warsaw".toList) 0 6 "GPE",
                 Mention.mk ("tx".toList) 0 2 "TITLE"]])]).1 ("Warsaw".toList)).mpr
    ⟨Mention.mk ("Warsaw".toList) 0 6 "GPE",
     ⟨(['T'], [[Mention.mk ("Warsaw".toList) 0 6 "GPE",
                Mention.mk ("tx".toList) 0 2 "TITLE"]]),
      by decide,
      [Mention.mk ("Warsaw".toList) 0 6 "GPE", Mention.mk ("tx".toList) 0 2 "TITLE"],
      by decide, by decide⟩,
     by decide, rfl⟩
